import Mathlib

/-!
Verification of the AirBnB interview program (`src/properties.py`).

The program has three parts:
* `perform_searches` — the Candidate Selector: sorts the catalog by latitude
  and by longitude, binary-searches (`bisect_left` / `bisect_right`) each
  ordering for the inclusive window `[coord - 1.0, coord + 1.0]`, and
  intersects the two id sets;
* `get_total_cost` — the Stay Pricer: walks the nights of a stay
  (`checkin` inclusive to `checkout` exclusive), adding the default nightly
  price when no availability record exists, the override price when a
  bookable record exists, and returning `None` (modelled as `none`) as soon
  as an unbookable record is met;
* `main` — the Ranker: prices every candidate, discards unavailable ones,
  sorts by total cost with Python's stable `sorted`, truncates to ten rows
  and emits 1-indexed ranks.

Modelling conventions: Python ints are `ℤ`, calendar dates are day numbers
in `ℤ` (`datetime` subtraction of midnight datetimes gives an exact day
count), property and search identifiers are `ℕ` (only equality of
identifiers matters), and coordinates are exact rationals `ℚ` (the claims
are stated in real arithmetic; only the order structure of coordinates is
used). Python's `None` outcome of `get_total_cost` is `Option.none`.
Python's stable `sorted` is modelled by Mathlib's stable `insertionSort`;
the `set` objects of `perform_searches` are `Finset ℕ`, and the
implementation-defined iteration order of a `set` is an explicit
enumeration parameter.
-/

/-- Property record: parsed fields of one line of the `Properties` section
(`property_id`, `lat`, `lng`, `nightly_price`). -/
structure Property where
  property_id : ℕ
  lat : ℚ
  lng : ℚ
  nightly_price : ℤ
deriving DecidableEq

/-- Availability record: parsed fields of one line of the `Dates` section
(`availability`, `price`); the key `(property_id, date)` is kept outside. -/
structure DateRecord where
  availability : ℤ
  price : ℤ
deriving DecidableEq

/-- Search record: parsed fields of one line of the `Searches` section. -/
structure Search where
  search_id : ℕ
  lat : ℚ
  lng : ℚ
  checkin : ℤ
  checkout : ℤ
deriving DecidableEq

/-- Availability index: the Python dict mapping `(property_id, date)` to the
availability record for that property on that night, modelled by its lookup
function (`none` models `key not in dates`). -/
def DatesIndex : Type := ℕ × ℤ → Option DateRecord

/-- Nights of a stay: `[checkin + one_day * i for i in range((checkout - checkin).days)]`
from `get_total_cost`; an empty list when `checkout ≤ checkin`. -/
def nights (checkin checkout : ℤ) : List ℤ :=
  (List.range (checkout - checkin).toNat).map (fun i : ℕ => checkin + (i : ℤ))

/-- Loop of `get_total_cost`: walk the nights with a running `cost`
accumulator; missing record adds the default price, an unbookable record
(`availability == 0`) returns `None`, a bookable record adds its override
price. -/
def price_nights (prop : Property) (dates : DatesIndex) : List ℤ → ℤ → Option ℤ
  | [], cost => some cost
  | night :: rest, cost =>
    match dates (prop.property_id, night) with
    | none => price_nights prop dates rest (cost + prop.nightly_price)
    | some d =>
      if d.availability = 0 then none
      else price_nights prop dates rest (cost + d.price)

/-- Embedding of `get_total_cost(prop, dates, checkin, checkout)`. -/
def get_total_cost (prop : Property) (dates : DatesIndex)
    (checkin checkout : ℤ) : Option ℤ :=
  price_nights prop dates (nights checkin checkout) 0

/-- Price the code charges for one night: the override price when a record
exists, the property's default nightly price otherwise. -/
def night_price (prop : Property) (dates : DatesIndex) (night : ℤ) : ℤ :=
  match dates (prop.property_id, night) with
  | none => prop.nightly_price
  | some d => d.price

/-- Decidable test that a night does not veto the stay: no record, or a
record with `availability ≠ 0`. -/
def avail_ok (prop : Property) (dates : DatesIndex) (night : ℤ) : Bool :=
  match dates (prop.property_id, night) with
  | none => true
  | some d => d.availability != 0

theorem mem_nights {checkin checkout n : ℤ} :
    n ∈ nights checkin checkout ↔ checkin ≤ n ∧ n < checkout := by
  simp only [nights, List.mem_map, List.mem_range]
  constructor
  · rintro ⟨i, hi, rfl⟩
    omega
  · rintro ⟨h1, h2⟩
    exact ⟨(n - checkin).toNat, by omega, by omega⟩

theorem nights_nodup (checkin checkout : ℤ) : (nights checkin checkout).Nodup := by
  refine List.Nodup.map ?_ (List.nodup_range _)
  intro i j h
  have hij : (i : ℤ) = j := by simpa using h
  omega

theorem length_nights (checkin checkout : ℤ) :
    (nights checkin checkout).length = (checkout - checkin).toNat := by
  simp [nights]

theorem price_nights_cons_none {prop : Property} {dates : DatesIndex}
    {night : ℤ} (rest : List ℤ) (c : ℤ)
    (hd : dates (prop.property_id, night) = none) :
    price_nights prop dates (night :: rest) c =
      price_nights prop dates rest (c + prop.nightly_price) := by
  simp [price_nights, hd]

theorem price_nights_cons_bad {prop : Property} {dates : DatesIndex}
    {night : ℤ} {d : DateRecord} (rest : List ℤ) (c : ℤ)
    (hd : dates (prop.property_id, night) = some d)
    (hav : d.availability = 0) :
    price_nights prop dates (night :: rest) c = none := by
  simp [price_nights, hd, hav]

theorem price_nights_cons_good {prop : Property} {dates : DatesIndex}
    {night : ℤ} {d : DateRecord} (rest : List ℤ) (c : ℤ)
    (hd : dates (prop.property_id, night) = some d)
    (hav : d.availability ≠ 0) :
    price_nights prop dates (night :: rest) c =
      price_nights prop dates rest (c + d.price) := by
  simp [price_nights, hd, hav]

theorem price_nights_all_ok (prop : Property) (dates : DatesIndex) :
    ∀ (l : List ℤ) (c : ℤ), (∀ n ∈ l, avail_ok prop dates n = true) →
      price_nights prop dates l c = some (c + (l.map (night_price prop dates)).sum)
  | [], c, _ => by simp [price_nights]
  | night :: rest, c, h => by
    have hhead := h night (List.mem_cons_self _ _)
    have htail : ∀ n ∈ rest, avail_ok prop dates n = true :=
      fun n hn => h n (List.mem_cons_of_mem _ hn)
    cases hd : dates (prop.property_id, night) with
    | none =>
      rw [price_nights_cons_none rest c hd,
        price_nights_all_ok prop dates rest _ htail]
      simp [night_price, hd]
      ring_nf
    | some d =>
      have hav : d.availability ≠ 0 := by
        simp only [avail_ok, hd, bne_iff_ne, ne_eq] at hhead
        exact hhead
      rw [price_nights_cons_good rest c hd hav,
        price_nights_all_ok prop dates rest _ htail]
      simp [night_price, hd]
      ring_nf

theorem price_nights_veto (prop : Property) (dates : DatesIndex) :
    ∀ (l : List ℤ) (c : ℤ) (n : ℤ), n ∈ l → avail_ok prop dates n = false →
      price_nights prop dates l c = none
  | [], _, n, hn, _ => absurd hn (List.not_mem_nil n)
  | night :: rest, c, n, hn, hbad => by
    cases hd : dates (prop.property_id, night) with
    | none =>
      have hne : n ≠ night := by
        intro h
        rw [h] at hbad
        simp [avail_ok, hd] at hbad
      have hr : n ∈ rest := (List.mem_cons.mp hn).resolve_left hne
      rw [price_nights_cons_none rest c hd]
      exact price_nights_veto prop dates rest _ n hr hbad
    | some d =>
      by_cases hav : d.availability = 0
      · exact price_nights_cons_bad rest c hd hav
      · have hne : n ≠ night := by
          intro h
          rw [h] at hbad
          simp [avail_ok, hd, hav] at hbad
        have hr : n ∈ rest := (List.mem_cons.mp hn).resolve_left hne
        rw [price_nights_cons_good rest c hd hav]
        exact price_nights_veto prop dates rest _ n hr hbad

theorem price_nights_all_missing (prop : Property) (dates : DatesIndex) :
    ∀ (l : List ℤ) (c : ℤ), (∀ n ∈ l, dates (prop.property_id, n) = none) →
      price_nights prop dates l c = some (c + l.length * prop.nightly_price)
  | [], c, _ => by simp [price_nights]
  | night :: rest, c, h => by
    have hd := h night (List.mem_cons_self _ _)
    have htail : ∀ n ∈ rest, dates (prop.property_id, n) = none :=
      fun n hn => h n (List.mem_cons_of_mem _ hn)
    rw [price_nights_cons_none rest c hd,
      price_nights_all_missing prop dates rest _ htail]
    congr 1
    simp only [List.length_cons]
    push_cast
    ring

theorem price_nights_shift (prop : Property) (dates : DatesIndex) :
    ∀ (l : List ℤ) (a b : ℤ),
      price_nights prop dates l (a + b) =
        (price_nights prop dates l b).map (fun c => a + c)
  | [], a, b => by simp [price_nights]
  | night :: rest, a, b => by
    cases hd : dates (prop.property_id, night) with
    | none =>
      rw [price_nights_cons_none rest _ hd, price_nights_cons_none rest b hd,
        add_assoc, price_nights_shift prop dates rest a _]
    | some d =>
      by_cases hav : d.availability = 0
      · rw [price_nights_cons_bad rest _ hd hav, price_nights_cons_bad rest b hd hav]
        rfl
      · rw [price_nights_cons_good rest _ hd hav, price_nights_cons_good rest b hd hav,
          add_assoc, price_nights_shift prop dates rest a _]

theorem price_nights_congr (prop : Property) :
    ∀ (l : List ℤ) (c : ℤ) (dates1 dates2 : DatesIndex),
      (∀ n ∈ l, dates1 (prop.property_id, n) = dates2 (prop.property_id, n)) →
      price_nights prop dates1 l c = price_nights prop dates2 l c
  | [], _, _, _, _ => rfl
  | night :: rest, c, dates1, dates2, h => by
    have hhead := h night (List.mem_cons_self _ _)
    have htail : ∀ n ∈ rest, dates1 (prop.property_id, n) = dates2 (prop.property_id, n) :=
      fun n hn => h n (List.mem_cons_of_mem _ hn)
    cases hd : dates2 (prop.property_id, night) with
    | none =>
      rw [price_nights_cons_none rest c (hhead.trans hd),
        price_nights_cons_none rest c hd]
      exact price_nights_congr prop rest _ dates1 dates2 htail
    | some d =>
      by_cases hav : d.availability = 0
      · rw [price_nights_cons_bad rest c (hhead.trans hd) hav,
          price_nights_cons_bad rest c hd hav]
      · rw [price_nights_cons_good rest c (hhead.trans hd) hav,
          price_nights_cons_good rest c hd hav]
        exact price_nights_congr prop rest _ dates1 dates2 htail

theorem price_nights_update (prop : Property) (dates : DatesIndex)
    (m : ℤ) (rec : DateRecord) (hav : rec.availability ≠ 0)
    (hnone : dates (prop.property_id, m) = none) :
    ∀ (l : List ℤ) (c : ℤ), l.Nodup → m ∈ l →
      price_nights prop (Function.update dates (prop.property_id, m) (some rec)) l c =
        (price_nights prop dates l c).map (fun tc => tc + (rec.price - prop.nightly_price))
  | [], _, _, hm => absurd hm (List.not_mem_nil m)
  | night :: rest, c, hnd, hm => by
    have hnd_rest : rest.Nodup := hnd.of_cons
    by_cases hnm : night = m
    · subst hnm
      have hrest_ne : ∀ n ∈ rest, n ≠ night := by
        intro n hn he
        exact (List.nodup_cons.mp hnd).1 (he ▸ hn)
      have hupd : Function.update dates (prop.property_id, night) (some rec)
          (prop.property_id, night) = some rec := Function.update_same _ _ _
      rw [price_nights_cons_good rest c hupd hav,
        price_nights_cons_none rest c hnone]
      have hagree : ∀ n ∈ rest,
          Function.update dates (prop.property_id, night) (some rec) (prop.property_id, n) =
            dates (prop.property_id, n) := by
        intro n hn
        exact Function.update_noteq (by simp [hrest_ne n hn]) _ _
      rw [price_nights_congr prop rest _ _ dates hagree]
      have h1 : c + rec.price = (rec.price - prop.nightly_price) + (c + prop.nightly_price) := by
        ring
      rw [h1, price_nights_shift prop dates rest _ _]
      cases price_nights prop dates rest (c + prop.nightly_price) with
      | none => rfl
      | some k => simp; ring
    · have hm_rest : m ∈ rest := (List.mem_cons.mp hm).resolve_left (fun h => hnm h.symm)
      have hupd : Function.update dates (prop.property_id, m) (some rec)
          (prop.property_id, night) = dates (prop.property_id, night) :=
        Function.update_noteq (by simp [hnm]) _ _
      cases hd : dates (prop.property_id, night) with
      | none =>
        rw [price_nights_cons_none rest c (hupd.trans hd),
          price_nights_cons_none rest c hd]
        exact price_nights_update prop dates m rec hav hnone rest _ hnd_rest hm_rest
      | some d =>
        by_cases hda : d.availability = 0
        · rw [price_nights_cons_bad rest c (hupd.trans hd) hda,
            price_nights_cons_bad rest c hd hda]
          rfl
        · rw [price_nights_cons_good rest c (hupd.trans hd) hda,
            price_nights_cons_good rest c hd hda]
          exact price_nights_update prop dates m rec hav hnone rest _ hnd_rest hm_rest

/-- Concrete property used by witnesses: id 1 at (0, 0), default price 100. -/
def propW : Property := ⟨1, 0, 0, 100⟩

/-- Concrete availability index used by witnesses: one bookable override
record for property 1 on night 6, price 25. -/
def datesW : DatesIndex := fun k => if k = (1, 6) then some ⟨1, 25⟩ else none

/-- Concrete availability index used by witnesses: one unbookable record for
property 1 on night 6. -/
def datesBad : DatesIndex := fun k => if k = (1, 6) then some ⟨0, 25⟩ else none

/-- Concrete availability index used by witnesses: no records at all. -/
def datesEmpty : DatesIndex := fun _ => none

/-- C2: with checkin ≤ checkout, the Stay Pricer enumerates exactly the
nights from checkin inclusive to checkout exclusive, and when every
existing record on those nights is bookable it returns the sum over the
nights of the default price (no record) or the override price (record). -/
theorem stay_pricer_sums_nightly_prices (prop : Property) (dates : DatesIndex)
    (checkin checkout : ℤ) (_hle : checkin ≤ checkout)
    (hok : ∀ n ∈ nights checkin checkout, avail_ok prop dates n = true) :
    (∀ n : ℤ, n ∈ nights checkin checkout ↔ checkin ≤ n ∧ n < checkout) ∧
    get_total_cost prop dates checkin checkout =
      some (((nights checkin checkout).map (night_price prop dates)).sum) := by
  refine ⟨fun n => mem_nights, ?_⟩
  rw [get_total_cost, price_nights_all_ok prop dates _ 0 hok, zero_add]

/-- Witness for C2 at property 1, one override record, stay of nights
5, 6, 7: total is 100 + 25 + 100 = 225. -/
theorem stay_pricer_sums_nightly_prices_witness :
    (5 : ℤ) ≤ 8 ∧ (∀ n ∈ nights 5 8, avail_ok propW datesW n = true) ∧
    get_total_cost propW datesW 5 8 =
      some (((nights 5 8).map (night_price propW datesW)).sum) :=
  ⟨by decide, by decide,
    (stay_pricer_sums_nightly_prices propW datesW 5 8 (by decide) (by decide)).2⟩

/-- C3: a single night with an unbookable availability record makes the
Stay Pricer return the `none` signal, which differs from `some c` for every
integer cost `c` (in particular from `some 0`). -/
theorem stay_pricer_unavailable_veto (prop : Property) (dates : DatesIndex)
    (checkin checkout : ℤ)
    (hbad : ∃ n ∈ nights checkin checkout, avail_ok prop dates n = false) :
    get_total_cost prop dates checkin checkout = none ∧
    ∀ c : ℤ, get_total_cost prop dates checkin checkout ≠ some c := by
  obtain ⟨n, hn, hb⟩ := hbad
  have h : get_total_cost prop dates checkin checkout = none :=
    price_nights_veto prop dates (nights checkin checkout) 0 n hn hb
  refine ⟨h, fun c hc => ?_⟩
  rw [h] at hc
  exact Option.noConfusion hc

/-- Witness for C3: property 1 with an unbookable record on night 6 of the
stay over nights 5, 6, 7 is rejected. -/
theorem stay_pricer_unavailable_veto_witness :
    (∃ n ∈ nights 5 8, avail_ok propW datesBad n = false) ∧
    (get_total_cost propW datesBad 5 8 = none ∧
      ∀ c : ℤ, get_total_cost propW datesBad 5 8 ≠ some c) :=
  ⟨by decide, stay_pricer_unavailable_veto propW datesBad 5 8 (by decide)⟩

/-- C4: when no availability record exists for any night of the stay, the
Stay Pricer returns (number of nights) × (default nightly price). -/
theorem stay_pricer_default_total (prop : Property) (dates : DatesIndex)
    (checkin checkout : ℤ)
    (hmiss : ∀ n ∈ nights checkin checkout, dates (prop.property_id, n) = none) :
    get_total_cost prop dates checkin checkout =
      some (((nights checkin checkout).length : ℤ) * prop.nightly_price) := by
  rw [get_total_cost, price_nights_all_missing prop dates _ 0 hmiss, zero_add]

/-- Witness for C4: three nights at default price 100 cost 300. -/
theorem stay_pricer_default_total_witness :
    (∀ n ∈ nights 5 8, datesEmpty (propW.property_id, n) = none) ∧
    get_total_cost propW datesEmpty 5 8 =
      some (((nights 5 8).length : ℤ) * propW.nightly_price) :=
  ⟨by decide, stay_pricer_default_total propW datesEmpty 5 8 (by decide)⟩

/-- C5: adding one bookable override record with price `rec.price` for a
night of the stay that previously had no record shifts the total by exactly
`rec.price - default`. -/
theorem stay_pricer_override_delta (prop : Property) (dates : DatesIndex)
    (checkin checkout m : ℤ) (rec : DateRecord) (c : ℤ)
    (hm : m ∈ nights checkin checkout)
    (hnone : dates (prop.property_id, m) = none)
    (hav : rec.availability ≠ 0)
    (hc : get_total_cost prop dates checkin checkout = some c) :
    get_total_cost prop (Function.update dates (prop.property_id, m) (some rec))
        checkin checkout = some (c + (rec.price - prop.nightly_price)) := by
  rw [get_total_cost] at hc ⊢
  rw [price_nights_update prop dates m rec hav hnone _ 0
    (nights_nodup checkin checkout) hm, hc]
  rfl

/-- Witness for C5: overriding night 6 of a 300-cost stay with price 25
moves the total to 300 + (25 − 100) = 225. -/
theorem stay_pricer_override_delta_witness :
    (6 : ℤ) ∈ nights 5 8 ∧ datesEmpty (propW.property_id, 6) = none ∧
    (DateRecord.mk 1 25).availability ≠ 0 ∧
    get_total_cost propW datesEmpty 5 8 = some 300 ∧
    get_total_cost propW
        (Function.update datesEmpty (propW.property_id, 6) (some ⟨1, 25⟩)) 5 8 =
      some (300 + (25 - propW.nightly_price)) :=
  ⟨by decide, by decide, by decide, by decide,
    stay_pricer_override_delta propW datesEmpty 5 8 6 ⟨1, 25⟩ 300
      (by decide) (by decide) (by decide) (by decide)⟩

/-- C7: a stay with checkin equal to checkout has zero nights and is priced
as a bookable stay of cost 0, not as unavailable. -/
theorem stay_pricer_zero_night_stay (prop : Property) (dates : DatesIndex) (d : ℤ) :
    get_total_cost prop dates d d = some 0 ∧ get_total_cost prop dates d d ≠ none := by
  have h : nights d d = [] := by simp [nights]
  constructor <;> simp [get_total_cost, h, price_nights]

/-- C10: a reversed date range (checkout strictly before checkin) gives an
empty night list, so the Stay Pricer returns cost 0, not `none` and not an
error. -/
theorem stay_pricer_reversed_range (prop : Property) (dates : DatesIndex)
    (checkin checkout : ℤ) (h : checkout < checkin) :
    get_total_cost prop dates checkin checkout = some 0 ∧
    get_total_cost prop dates checkin checkout ≠ none := by
  have h0 : (checkout - checkin).toNat = 0 := by omega
  have hn : nights checkin checkout = [] := by simp [nights, h0]
  constructor <;> simp [get_total_cost, hn, price_nights]

/-- Witness for C10 at checkin 5, checkout 3. -/
theorem stay_pricer_reversed_range_witness :
    (3 : ℤ) < 5 ∧ (get_total_cost propW datesEmpty 5 3 = some 0 ∧
      get_total_cost propW datesEmpty 5 3 ≠ none) :=
  ⟨by decide, stay_pricer_reversed_range propW datesEmpty 5 3 (by decide)⟩

/-- Ordering used by `sorted(properties.values(), key=operator.itemgetter("lat"))`:
compare latitude keys. -/
def latLE (p q : Property) : Prop := p.lat ≤ q.lat

instance : DecidableRel latLE :=
  fun p q => inferInstanceAs (Decidable (p.lat ≤ q.lat))

instance : IsTotal Property latLE := ⟨fun p q => le_total p.lat q.lat⟩

instance : IsTrans Property latLE := ⟨fun _ _ _ h h2 => le_trans h h2⟩

/-- Ordering used by `sorted(properties.values(), key=operator.itemgetter("lng"))`:
compare longitude keys. -/
def lngLE (p q : Property) : Prop := p.lng ≤ q.lng

instance : DecidableRel lngLE :=
  fun p q => inferInstanceAs (Decidable (p.lng ≤ q.lng))

instance : IsTotal Property lngLE := ⟨fun p q => le_total p.lng q.lng⟩

instance : IsTrans Property lngLE := ⟨fun _ _ _ h h2 => le_trans h h2⟩

/-- Catalog sorted by latitude (`sorted_by_lat` in `perform_searches`);
Python's stable `sorted` is modelled by the stable `insertionSort`. -/
def sorted_by_lat (catalog : List Property) : List Property :=
  List.insertionSort latLE catalog

/-- Catalog sorted by longitude (`sorted_by_lng` in `perform_searches`). -/
def sorted_by_lng (catalog : List Property) : List Property :=
  List.insertionSort lngLE catalog

/-- Key list `lats = [prop["lat"] for prop in sorted_by_lat]`. -/
def lats (catalog : List Property) : List ℚ :=
  (sorted_by_lat catalog).map Property.lat

/-- Key list `lngs = [prop["lng"] for prop in sorted_by_lng]`. -/
def lngs (catalog : List Property) : List ℚ :=
  (sorted_by_lng catalog).map Property.lng

/-- Library function `bisect.bisect_left(a, x)`, modelled by its documented
result on the sorted key lists the program applies it to: the leftmost
insertion point, i.e. the number of elements strictly below `x`. -/
def bisect_left (a : List ℚ) (x : ℚ) : ℕ :=
  a.countP (fun y => decide (y < x))

/-- Library function `bisect.bisect_right(a, x)`: the rightmost insertion
point on a sorted list, i.e. the number of elements at most `x`. -/
def bisect_right (a : List ℚ) (x : ℚ) : ℕ :=
  a.countP (fun y => decide (y ≤ x))

/-- Python slice `l[lo:hi]` (for `lo ≤ hi` within range; empty when
`hi ≤ lo`, as in Python). -/
def pySlice (l : List Property) (lo hi : ℕ) : List Property :=
  (l.drop lo).take (hi - lo)

/-- Id set `prop_ids_in_lat_range` of `perform_searches`: ids of the slice
of the latitude-sorted catalog between the two bisection points for the
window `[search.lat - 1.0, search.lat + 1.0]`. -/
def prop_ids_in_lat_range (catalog : List Property) (s : Search) : Finset ℕ :=
  ((pySlice (sorted_by_lat catalog)
      (bisect_left (lats catalog) (s.lat - 1))
      (bisect_right (lats catalog) (s.lat + 1))).map Property.property_id).toFinset

/-- Id set `prop_ids_in_lng_range` of `perform_searches`. -/
def prop_ids_in_lng_range (catalog : List Property) (s : Search) : Finset ℕ :=
  ((pySlice (sorted_by_lng catalog)
      (bisect_left (lngs catalog) (s.lng - 1))
      (bisect_right (lngs catalog) (s.lng + 1))).map Property.property_id).toFinset

/-- Candidate id set of one search: the intersection
`prop_ids_in_lat_range.intersection(prop_ids_in_lng_range)`. -/
def select (catalog : List Property) (s : Search) : Finset ℕ :=
  prop_ids_in_lat_range catalog s ∩ prop_ids_in_lng_range catalog s

/-- Slicing a key-sorted list between the two bisection points yields
exactly the elements whose key lies in the inclusive window `[x, y]`. -/
theorem sorted_slice_eq_filter (k : Property → ℚ) (x y : ℚ) :
    ∀ l : List Property, l.Pairwise (fun p q => k p ≤ k q) →
      (l.drop (l.countP (fun p => decide (k p < x)))).take
          (l.countP (fun p => decide (k p ≤ y)) - l.countP (fun p => decide (k p < x)))
        = l.filter (fun p => decide (x ≤ k p) && decide (k p ≤ y))
  | [], _ => rfl
  | a :: t, hp => by
    obtain ⟨ha, ht⟩ := List.pairwise_cons.mp hp
    have ih := sorted_slice_eq_filter k x y t ht
    by_cases hax : k a < x
    · have hcl : (a :: t).countP (fun p => decide (k p < x)) =
          t.countP (fun p => decide (k p < x)) + 1 := by
        simp [List.countP_cons, hax]
      by_cases hay : k a ≤ y
      · have hcr : (a :: t).countP (fun p => decide (k p ≤ y)) =
            t.countP (fun p => decide (k p ≤ y)) + 1 := by
          simp [List.countP_cons, hay]
        rw [hcl, hcr, List.drop_succ_cons, Nat.succ_sub_succ]
        rw [List.filter_cons_of_neg (by simp [not_le.mpr hax])]
        exact ih
      · have hy : y < k a := not_le.mp hay
        have hcr0 : (a :: t).countP (fun p => decide (k p ≤ y)) = 0 := by
          rw [List.countP_eq_zero]
          intro p hp'
          rcases List.mem_cons.mp hp' with h | h
          · simp [h, hay]
          · simp [not_le.mpr (lt_of_lt_of_le hy (ha p h))]
        rw [hcl, hcr0, Nat.zero_sub, List.take_zero]
        symm
        rw [List.filter_eq_nil_iff]
        intro p hp'
        rcases List.mem_cons.mp hp' with h | h
        · simp [h, hay]
        · simp [not_le.mpr (lt_of_lt_of_le hy (ha p h))]
    · have hxa : x ≤ k a := not_lt.mp hax
      have hclt : t.countP (fun p => decide (k p < x)) = 0 := by
        rw [List.countP_eq_zero]
        intro p hp'
        simp [not_lt.mpr (le_trans hxa (ha p hp'))]
      have hcl0 : (a :: t).countP (fun p => decide (k p < x)) = 0 := by
        rw [List.countP_cons]
        simp [hax, hclt]
      rw [hcl0, List.drop_zero, Nat.sub_zero]
      by_cases hay : k a ≤ y
      · have hcr : (a :: t).countP (fun p => decide (k p ≤ y)) =
            t.countP (fun p => decide (k p ≤ y)) + 1 := by
          simp [List.countP_cons, hay]
        rw [hcr, List.take_succ_cons,
          List.filter_cons_of_pos (by simp [hxa, hay])]
        have ih2 := ih
        rw [hclt, List.drop_zero, Nat.sub_zero] at ih2
        rw [ih2]
      · have hy : y < k a := not_le.mp hay
        have hcr0 : (a :: t).countP (fun p => decide (k p ≤ y)) = 0 := by
          rw [List.countP_eq_zero]
          intro p hp'
          rcases List.mem_cons.mp hp' with h | h
          · simp [h, hay]
          · simp [not_le.mpr (lt_of_lt_of_le hy (ha p h))]
        rw [hcr0, List.take_zero]
        symm
        rw [List.filter_eq_nil_iff]
        intro p hp'
        rcases List.mem_cons.mp hp' with h | h
        · simp [h, hay]
        · simp [not_le.mpr (lt_of_lt_of_le hy (ha p h))]

theorem sorted_by_lat_pairwise (catalog : List Property) :
    (sorted_by_lat catalog).Pairwise (fun p q => p.lat ≤ q.lat) :=
  List.sorted_insertionSort latLE catalog

theorem sorted_by_lng_pairwise (catalog : List Property) :
    (sorted_by_lng catalog).Pairwise (fun p q => p.lng ≤ q.lng) :=
  List.sorted_insertionSort lngLE catalog

theorem mem_sorted_by_lat {catalog : List Property} {p : Property} :
    p ∈ sorted_by_lat catalog ↔ p ∈ catalog :=
  (List.perm_insertionSort latLE catalog).mem_iff

theorem mem_sorted_by_lng {catalog : List Property} {p : Property} :
    p ∈ sorted_by_lng catalog ↔ p ∈ catalog :=
  (List.perm_insertionSort lngLE catalog).mem_iff

theorem bisect_left_lats (catalog : List Property) (x : ℚ) :
    bisect_left (lats catalog) x =
      (sorted_by_lat catalog).countP (fun p => decide (p.lat < x)) := by
  rw [bisect_left, lats, List.countP_map]
  rfl

theorem bisect_right_lats (catalog : List Property) (x : ℚ) :
    bisect_right (lats catalog) x =
      (sorted_by_lat catalog).countP (fun p => decide (p.lat ≤ x)) := by
  rw [bisect_right, lats, List.countP_map]
  rfl

theorem bisect_left_lngs (catalog : List Property) (x : ℚ) :
    bisect_left (lngs catalog) x =
      (sorted_by_lng catalog).countP (fun p => decide (p.lng < x)) := by
  rw [bisect_left, lngs, List.countP_map]
  rfl

theorem bisect_right_lngs (catalog : List Property) (x : ℚ) :
    bisect_right (lngs catalog) x =
      (sorted_by_lng catalog).countP (fun p => decide (p.lng ≤ x)) := by
  rw [bisect_right, lngs, List.countP_map]
  rfl

theorem mem_prop_ids_in_lat_range {catalog : List Property} {s : Search} {n : ℕ} :
    n ∈ prop_ids_in_lat_range catalog s ↔
      ∃ p ∈ catalog, p.property_id = n ∧
        s.lat - 1 ≤ p.lat ∧ p.lat ≤ s.lat + 1 := by
  rw [prop_ids_in_lat_range, List.mem_toFinset, pySlice,
    bisect_left_lats, bisect_right_lats,
    sorted_slice_eq_filter Property.lat (s.lat - 1) (s.lat + 1)
      (sorted_by_lat catalog) (sorted_by_lat_pairwise catalog)]
  simp only [List.mem_map, List.mem_filter, Bool.and_eq_true, decide_eq_true_eq,
    mem_sorted_by_lat]
  constructor
  · rintro ⟨p, ⟨hp, h1, h2⟩, hn⟩
    exact ⟨p, hp, hn, h1, h2⟩
  · rintro ⟨p, hp, hn, h1, h2⟩
    exact ⟨p, ⟨hp, h1, h2⟩, hn⟩

theorem mem_prop_ids_in_lng_range {catalog : List Property} {s : Search} {n : ℕ} :
    n ∈ prop_ids_in_lng_range catalog s ↔
      ∃ p ∈ catalog, p.property_id = n ∧
        s.lng - 1 ≤ p.lng ∧ p.lng ≤ s.lng + 1 := by
  rw [prop_ids_in_lng_range, List.mem_toFinset, pySlice,
    bisect_left_lngs, bisect_right_lngs,
    sorted_slice_eq_filter Property.lng (s.lng - 1) (s.lng + 1)
      (sorted_by_lng catalog) (sorted_by_lng_pairwise catalog)]
  simp only [List.mem_map, List.mem_filter, Bool.and_eq_true, decide_eq_true_eq,
    mem_sorted_by_lng]
  constructor
  · rintro ⟨p, ⟨hp, h1, h2⟩, hn⟩
    exact ⟨p, hp, hn, h1, h2⟩
  · rintro ⟨p, hp, hn, h1, h2⟩
    exact ⟨p, ⟨hp, h1, h2⟩, hn⟩

theorem mem_select {catalog : List Property} {s : Search} {n : ℕ}
    (hnd : (catalog.map Property.property_id).Nodup) :
    n ∈ select catalog s ↔
      ∃ p ∈ catalog, p.property_id = n ∧
        s.lat - 1 ≤ p.lat ∧ p.lat ≤ s.lat + 1 ∧
        s.lng - 1 ≤ p.lng ∧ p.lng ≤ s.lng + 1 := by
  rw [select, Finset.mem_inter, mem_prop_ids_in_lat_range, mem_prop_ids_in_lng_range]
  constructor
  · rintro ⟨⟨p, hp, hpn, hlat1, hlat2⟩, ⟨q, hq, hqn, hlng1, hlng2⟩⟩
    have hpq : p = q :=
      List.inj_on_of_nodup_map hnd hp hq (hpn.trans hqn.symm)
    exact ⟨p, hp, hpn, hlat1, hlat2, hpq ▸ hlng1, hpq ▸ hlng2⟩
  · rintro ⟨p, hp, hpn, h1, h2, h3, h4⟩
    exact ⟨⟨p, hp, hpn, h1, h2⟩, ⟨p, hp, hpn, h3, h4⟩⟩

/-- C1: with the catalog keyed by distinct property ids (it is a Python
dict), a catalog property's id is in the candidate set of a search exactly
when its latitude lies in the inclusive window `[s.lat - 1, s.lat + 1]` and
its longitude lies in the inclusive window `[s.lng - 1, s.lng + 1]`. -/
theorem candidate_selector_bounding_box (catalog : List Property) (s : Search)
    (hnd : (catalog.map Property.property_id).Nodup)
    (p : Property) (hp : p ∈ catalog) :
    p.property_id ∈ select catalog s ↔
      (s.lat - 1 ≤ p.lat ∧ p.lat ≤ s.lat + 1 ∧
       s.lng - 1 ≤ p.lng ∧ p.lng ≤ s.lng + 1) := by
  rw [mem_select hnd]
  constructor
  · rintro ⟨q, hq, hqn, h⟩
    have hqp : q = p := List.inj_on_of_nodup_map hnd hq hp hqn
    exact hqp ▸ h
  · intro h
    exact ⟨p, hp, rfl, h⟩

/-- Concrete catalog used by selector witnesses: property 1 at (0, 0) and
property 2 at (5, 5). -/
def catalogW : List Property := [⟨1, 0, 0, 100⟩, ⟨2, 5, 5, 50⟩]

/-- Concrete search used by selector witnesses: at (1/2, 1/2), checkin day 0,
checkout day 2. -/
def sW : Search := ⟨1, 1/2, 1/2, 0, 2⟩

/-- Witness for C1: property 1 at (0, 0) is inside the box around
(1/2, 1/2), so its id is selected. -/
theorem candidate_selector_bounding_box_witness :
    ((catalogW.map Property.property_id).Nodup ∧ propW ∈ catalogW) ∧
    (propW.property_id ∈ select catalogW sW ↔
      (sW.lat - 1 ≤ propW.lat ∧ propW.lat ≤ sW.lat + 1 ∧
       sW.lng - 1 ≤ propW.lng ∧ propW.lng ≤ sW.lng + 1)) :=
  ⟨⟨by decide, by decide⟩,
    candidate_selector_bounding_box catalogW sW (by decide) propW (by decide)⟩

/-- Modelled from the spec: the brute-force linear-scan oracle for candidate
selection — test every catalog property directly against the inclusive
bounding box. This oracle comes from the spec's testable properties; it has
no counterpart in `src/properties.py`. -/
def brute_force_select (catalog : List Property) (s : Search) : Finset ℕ :=
  ((catalog.filter (fun p =>
      decide (s.lat - 1 ≤ p.lat) && decide (p.lat ≤ s.lat + 1) &&
      decide (s.lng - 1 ≤ p.lng) && decide (p.lng ≤ s.lng + 1))).map
    Property.property_id).toFinset

/-- C8: for a catalog with distinct property ids, the sorted-arrays-plus-
binary-search candidate set coincides with the brute-force linear-scan
candidate set, as a set of property identifiers. -/
theorem selector_matches_brute_force (catalog : List Property) (s : Search)
    (hnd : (catalog.map Property.property_id).Nodup) :
    select catalog s = brute_force_select catalog s := by
  ext n
  rw [mem_select hnd, brute_force_select, List.mem_toFinset]
  simp only [List.mem_map, List.mem_filter, Bool.and_eq_true, decide_eq_true_eq]
  constructor
  · rintro ⟨p, hp, hn, h1, h2, h3, h4⟩
    exact ⟨p, ⟨hp, ⟨⟨⟨h1, h2⟩, h3⟩, h4⟩⟩, hn⟩
  · rintro ⟨p, ⟨hp, ⟨⟨⟨h1, h2⟩, h3⟩, h4⟩⟩, hn⟩
    exact ⟨p, hp, hn, h1, h2, h3, h4⟩

/-- Witness for C8 on the concrete two-property catalog: both strategies
select exactly property 1. -/
theorem selector_matches_brute_force_witness :
    (catalogW.map Property.property_id).Nodup ∧
    select catalogW sW = brute_force_select catalogW sW :=
  ⟨by decide, selector_matches_brute_force catalogW sW (by decide)⟩

/-- Cost ordering used by `sorted(properties_and_costs, key=lambda k: k[1])`:
compare the cost component. -/
def costLE (a b : Property × ℤ) : Prop := a.2 ≤ b.2

instance : DecidableRel costLE :=
  fun a b => inferInstanceAs (Decidable (a.2 ≤ b.2))

instance : IsTotal (Property × ℤ) costLE := ⟨fun a b => le_total a.2 b.2⟩

instance : IsTrans (Property × ℤ) costLE := ⟨fun _ _ _ h h2 => le_trans h h2⟩

/-- Dict lookup `properties[prop_id]` (line 122 of the source): the catalog
property carrying the given id. -/
def lookup_prop (catalog : List Property) (n : ℕ) : Option Property :=
  catalog.find? (fun p => p.property_id == n)

/-- Candidate list `[properties[prop_id] for prop_id in prop_ids]`, where
`e` is the iteration order Python's `set` happened to produce for the
candidate id set (implementation-defined, so kept as a parameter). -/
def candidates (catalog : List Property) (e : List ℕ) : List Property :=
  e.filterMap (lookup_prop catalog)

/-- List `properties_and_costs` of `main`: each candidate the Stay Pricer
did not reject, paired with its total cost, in candidate order. -/
def properties_and_costs (catalog : List Property) (dates : DatesIndex)
    (s : Search) (e : List ℕ) : List (Property × ℤ) :=
  (candidates catalog e).filterMap
    (fun prop => (get_total_cost prop dates s.checkin s.checkout).map
      (fun c => (prop, c)))

/-- List `sorted_results` of `main`: stable sort by cost. -/
def sorted_results (catalog : List Property) (dates : DatesIndex)
    (s : Search) (e : List ℕ) : List (Property × ℤ) :=
  List.insertionSort costLE (properties_and_costs catalog dates s e)

/-- Output rows printed by `main` for one search: the first ten sorted
results, each as `(search_id, rank, property_id, total cost)` with the
1-indexed rank coming from `enumerate`. -/
def output_rows (catalog : List Property) (dates : DatesIndex)
    (s : Search) (e : List ℕ) : List (ℕ × ℕ × ℕ × ℤ) :=
  ((sorted_results catalog dates s e).take 10).enum.map
    (fun ic => (s.search_id, ic.1 + 1, ic.2.1.property_id, ic.2.2))

/-- Iteration of a Python `set`: some enumeration of the set's elements,
each exactly once; which order is implementation-defined. -/
def valid_enum (S : Finset ℕ) (e : List ℕ) : Prop :=
  e.Nodup ∧ e.toFinset = S

theorem sorted_results_pairwise (catalog : List Property) (dates : DatesIndex)
    (s : Search) (e : List ℕ) :
    (sorted_results catalog dates s e).Pairwise costLE :=
  List.sorted_insertionSort costLE (properties_and_costs catalog dates s e)

theorem mem_sorted_results {catalog : List Property} {dates : DatesIndex}
    {s : Search} {e : List ℕ} {pc : Property × ℤ} :
    pc ∈ sorted_results catalog dates s e ↔
      pc ∈ properties_and_costs catalog dates s e :=
  (List.perm_insertionSort costLE (properties_and_costs catalog dates s e)).mem_iff

theorem mem_properties_and_costs {catalog : List Property} {dates : DatesIndex}
    {s : Search} {e : List ℕ} {pc : Property × ℤ} :
    pc ∈ properties_and_costs catalog dates s e ↔
      ∃ p ∈ candidates catalog e, p = pc.1 ∧
        get_total_cost p dates s.checkin s.checkout = some pc.2 := by
  rw [properties_and_costs, List.mem_filterMap]
  constructor
  · rintro ⟨p, hp, hmap⟩
    rcases Option.map_eq_some'.mp hmap with ⟨c, hc, hpc⟩
    refine ⟨p, hp, ?_, ?_⟩
    · rw [← hpc]
    · rw [hc, ← hpc]
  · rintro ⟨p, hp, hp1, hc⟩
    refine ⟨p, hp, ?_⟩
    rw [hc, Option.map_some', hp1]

theorem enum_map_comp_snd {α β : Type} (f : α → β) (l : List α) :
    l.enum.map (fun ic => f ic.2) = l.map f := by
  have h : (fun ic : ℕ × α => f ic.2) = f ∘ Prod.snd := rfl
  rw [h, ← List.map_map, List.enum_map_snd]

theorem enum_map_comp_fst {α β : Type} (g : ℕ → β) (l : List α) :
    l.enum.map (fun ic => g ic.1) = (List.range l.length).map g := by
  have h : (fun ic : ℕ × α => g ic.1) = g ∘ Prod.fst := rfl
  rw [h, ← List.map_map, List.enum_map_fst]

/-- C6: for every search and any candidate discovery order, the emitted
rows are sorted non-decreasing by total cost, number at most ten, carry the
consecutive 1-indexed ranks 1..len, each row's property was priced (not
marked unavailable) by the Stay Pricer at exactly the row's cost, and zero
bookable candidates emit zero rows. -/
theorem ranker_rows_ok (catalog : List Property) (dates : DatesIndex)
    (s : Search) (e : List ℕ) :
    ((output_rows catalog dates s e).map (fun r => r.2.2.2)).Sorted (· ≤ ·) ∧
    (output_rows catalog dates s e).length ≤ 10 ∧
    ((output_rows catalog dates s e).map (fun r => r.2.1) =
      (List.range (output_rows catalog dates s e).length).map (fun i => i + 1)) ∧
    (∀ r ∈ output_rows catalog dates s e,
      ∃ p : Property, p.property_id = r.2.2.1 ∧
        get_total_cost p dates s.checkin s.checkout = some r.2.2.2) ∧
    (properties_and_costs catalog dates s e = [] →
      output_rows catalog dates s e = []) := by
  have hpair : ((sorted_results catalog dates s e).take 10).Pairwise costLE :=
    List.Pairwise.sublist (List.take_sublist _ _) (sorted_results_pairwise catalog dates s e)
  have hlen : (output_rows catalog dates s e).length =
      ((sorted_results catalog dates s e).take 10).length := by
    rw [output_rows, List.length_map, List.enum_length]
  have hcost : (output_rows catalog dates s e).map (fun r => r.2.2.2) =
      ((sorted_results catalog dates s e).take 10).map (fun pc => pc.2) := by
    rw [output_rows, List.map_map]
    exact enum_map_comp_snd (fun pc : Property × ℤ => pc.2)
      ((sorted_results catalog dates s e).take 10)
  refine ⟨?_, ?_, ?_, ?_, ?_⟩
  · rw [hcost]
    exact List.Pairwise.map _ (fun a b h => h) hpair
  · rw [hlen, List.length_take]
    exact min_le_left _ _
  · rw [hlen, output_rows, List.map_map]
    exact enum_map_comp_fst (fun i => i + 1) _
  · intro r hr
    rw [output_rows, List.mem_map] at hr
    obtain ⟨ic, hic, rfl⟩ := hr
    have h2 : ic.2 ∈ (sorted_results catalog dates s e).take 10 := by
      have h3 := List.mem_map_of_mem Prod.snd hic
      rwa [List.enum_map_snd] at h3
    have h4 : ic.2 ∈ properties_and_costs catalog dates s e :=
      mem_sorted_results.mp ((List.take_sublist _ _).subset h2)
    obtain ⟨p, _, hp1, hc⟩ := mem_properties_and_costs.mp h4
    exact ⟨p, by rw [hp1], hc⟩
  · intro h
    rw [output_rows, sorted_results, h]
    rfl

/-- Concrete catalog with a cost tie: properties 1 and 2 both at (0, 0)
with default price 100. -/
def catalogT : List Property := [⟨1, 0, 0, 100⟩, ⟨2, 0, 0, 100⟩]

/-- Concrete search at (0, 0), checkin day 0, checkout day 1 (one night). -/
def sT : Search := ⟨1, 0, 0, 0, 1⟩

/-- Witness for C6 at the concrete two-property catalog, empty availability
index, search at (0, 0) for one night, discovery order [1, 2]. -/
theorem ranker_rows_ok_witness :
    ((output_rows catalogT datesEmpty sT [1, 2]).map (fun r => r.2.2.2)).Sorted (· ≤ ·) ∧
    (output_rows catalogT datesEmpty sT [1, 2]).length ≤ 10 ∧
    ((output_rows catalogT datesEmpty sT [1, 2]).map (fun r => r.2.1) =
      (List.range (output_rows catalogT datesEmpty sT [1, 2]).length).map (fun i => i + 1)) ∧
    (∀ r ∈ output_rows catalogT datesEmpty sT [1, 2],
      ∃ p : Property, p.property_id = r.2.2.1 ∧
        get_total_cost p datesEmpty sT.checkin sT.checkout = some r.2.2.2) ∧
    (properties_and_costs catalogT datesEmpty sT [1, 2] = [] →
      output_rows catalogT datesEmpty sT [1, 2] = []) :=
  ranker_rows_ok catalogT datesEmpty sT [1, 2]

theorem filter_orderedInsert_cost (c : ℤ) (a : Property × ℤ) :
    ∀ l : List (Property × ℤ),
      (List.orderedInsert costLE a l).filter (fun pc => decide (pc.2 = c)) =
        if a.2 = c then a :: l.filter (fun pc => decide (pc.2 = c))
        else l.filter (fun pc => decide (pc.2 = c))
  | [] => by
    by_cases h : a.2 = c <;> simp [List.orderedInsert, h]
  | b :: t => by
    rw [List.orderedInsert]
    by_cases hab : costLE a b
    · rw [if_pos hab]
      by_cases h : a.2 = c <;> simp [List.filter_cons, h]
    · rw [if_neg hab]
      have hba : b.2 < a.2 := not_le.mp (by simpa [costLE] using hab)
      have ih := filter_orderedInsert_cost c a t
      by_cases h : a.2 = c
      · have hbc : ¬(b.2 = c) := by omega
        simp [List.filter_cons, hbc, ih, h]
      · simp [List.filter_cons, ih, h]

theorem filter_insertionSort_cost (c : ℤ) :
    ∀ l : List (Property × ℤ),
      (List.insertionSort costLE l).filter (fun pc => decide (pc.2 = c)) =
        l.filter (fun pc => decide (pc.2 = c))
  | [] => rfl
  | a :: t => by
    rw [List.insertionSort,
      filter_orderedInsert_cost c a (List.insertionSort costLE t),
      filter_insertionSort_cost c t]
    by_cases h : a.2 = c <;> simp [List.filter_cons, h]

/-- C9 (amended): for a fixed catalog, availability index, search and a
fixed discovery order of the candidate ids, the pipeline is a pure function
of those inputs, and for every cost value the equal-cost rows of the sorted
results appear in exactly the discovery order (the stable sort preserves
the relative order of cost ties). -/
theorem ranker_stable_for_fixed_order (catalog : List Property)
    (dates : DatesIndex) (s : Search) (e : List ℕ) (c : ℤ) :
    (sorted_results catalog dates s e).filter (fun pc => decide (pc.2 = c)) =
      (properties_and_costs catalog dates s e).filter (fun pc => decide (pc.2 = c)) :=
  filter_insertionSort_cost c (properties_and_costs catalog dates s e)

theorem select_catalogT : select catalogT sT = ({1, 2} : Finset ℕ) := by
  ext n
  rw [mem_select (by decide)]
  simp only [Finset.mem_insert, Finset.mem_singleton]
  constructor
  · rintro ⟨p, hp, rfl, h⟩
    rcases List.mem_cons.mp hp with rfl | hp2
    · left
      rfl
    · rcases List.mem_cons.mp hp2 with rfl | hp3
      · right
        rfl
      · exact absurd hp3 (List.not_mem_nil p)
  · rintro (rfl | rfl)
    · refine ⟨⟨1, 0, 0, 100⟩, by simp [catalogT], rfl, ?_⟩
      norm_num [sT]
    · refine ⟨⟨2, 0, 0, 100⟩, by simp [catalogT], rfl, ?_⟩
      norm_num [sT]

/-- C9 counterexample: the candidate id set of the tie catalog is {1, 2};
both [1, 2] and [2, 1] are possible iteration orders of that Python set
(which order a run gets is implementation-defined hash order), and the two
orders produce different ranked output rows — the equal-cost rows swap. -/
theorem ranker_output_depends_on_set_order :
    valid_enum (select catalogT sT) [1, 2] ∧
    valid_enum (select catalogT sT) [2, 1] ∧
    output_rows catalogT datesEmpty sT [1, 2] ≠
      output_rows catalogT datesEmpty sT [2, 1] := by
  refine ⟨⟨by decide, ?_⟩, ⟨by decide, ?_⟩, ?_⟩
  · rw [select_catalogT]
    decide
  · rw [select_catalogT]
    decide
  · decide
